import Mathlib

/-!
Verification of the marlin catalog/vacancies core: a shallow embedding of
the derived-value computations (`Product.get_final_price`,
`Vacancy.get_formatted_salary`, `Vacancy.clean`), the repository filter
layer (`ProductRepository.filter`, `VacancyRepository.filter`,
`CategoryRepository.get_parents`) and the view-level ordering-option
lookup (`ORDERING_OPTIONS`), together with theorems about them.

Querysets are modelled as lists of records; `.filter(...)` on a queryset
becomes `List.filter`, `.order_by(f)` becomes a sort by the resolved key,
and Python truthiness on optional integers / strings is made explicit
(`optTruthy`, `strTruthy`): Python treats both `None` and `0` (resp. the
empty string) as false.

Decimal fields (`price`, `discount`) are modelled as exact rationals: for
the magnitudes the fields admit (10 digits, 2 decimal places), Python
`Decimal` arithmetic in `get_final_price` is exact, so `ℚ` is faithful.
-/

/-- Python truthiness of an optional integer: `None` and `0` are falsy. -/
def optTruthy (o : Option Nat) : Bool :=
  match o with
  | none => false
  | some n => n != 0

/-- Python truthiness of an optional string: `None` and `""` are falsy. -/
def strTruthy (o : Option String) : Bool :=
  match o with
  | none => false
  | some s => s != ""

/-- Tests whether `pat` occurs as a contiguous sublist of the haystack. -/
def charsContain (pat : List Char) : List Char → Bool
  | [] => pat.isEmpty
  | c :: t => pat.isPrefixOf (c :: t) || charsContain pat t

/-- Case-insensitive substring test, embedding the ORM `__icontains`
lookup: lowercase both sides and test contiguous containment. -/
def icontains (s q : String) : Bool :=
  charsContain (q.data.map Char.toLower) (s.data.map Char.toLower)

/-- The fields of `catalog.models.Product` the repository layer reads:
`name`, `price`, `discount` (decimal percent), `category` (FK id),
`is_active`. Remaining columns (slug, sku, stock, timestamps, ...) play
no role in the verified operations. -/
structure Product where
  name : String
  price : ℚ
  discount : ℚ
  category : Nat
  is_active : Bool
deriving DecidableEq

/-- Embedding of `Product.get_final_price`: `self.price * (1 - self.discount / Decimal("100"))`. -/
def Product.get_final_price (p : Product) : ℚ :=
  p.price * (1 - p.discount / 100)

/-- The fields of `vacancies.models.Vacancy` the verified operations read:
`title`, `short_description`, `description`, `is_active` and the two
nullable salary bounds. -/
structure Vacancy where
  title : String
  short_description : String
  description : String
  is_active : Bool
  salary_from : Option Nat
  salary_to : Option Nat
deriving DecidableEq

/-- Embedding of `Vacancy.get_formatted_salary`: branches on Python truthiness of the
salary bounds; message ids are the source's (untranslated) format
strings "%(from)s – %(to)s", "from %(from)s", "to %(to)s". -/
def Vacancy.get_formatted_salary (v : Vacancy) : String :=
  if optTruthy v.salary_from && optTruthy v.salary_to then
    toString (v.salary_from.getD 0) ++ " – " ++ toString (v.salary_to.getD 0)
  else if optTruthy v.salary_from then
    "from " ++ toString (v.salary_from.getD 0)
  else if optTruthy v.salary_to then
    "to " ++ toString (v.salary_to.getD 0)
  else ""

/-- Embedding of `Vacancy.clean`: raises `ValidationError({"salary_to": msg})` when both
salary bounds are truthy and `salary_from >= salary_to`; the error is
modelled as the field key / message pair it carries. -/
def Vacancy.clean (v : Vacancy) : Except (String × String) Unit :=
  if optTruthy v.salary_from && optTruthy v.salary_to &&
      decide (v.salary_from.getD 0 ≥ v.salary_to.getD 0) then
    Except.error ("salary_to",
      "Maximum salary must be greater than minimum salary.")
  else Except.ok ()

/-- Helper to build a `Vacancy` holding only a salary range, for concrete
evaluations of the salary functions (text fields empty, active). -/
def mkVacancy (sf st : Option Nat) : Vacancy :=
  ⟨"", "", "", true, sf, st⟩

/-- Embedding of `catalog.dataclasses.OrderingOption`: an order field (or `None`) and a
human-readable label. -/
structure OrderingOption where
  field : Option String
  label : String
deriving DecidableEq

/-- Embedding of `catalog.constants.ORDERING_OPTIONS`: the sort-key dictionary, as an
association list in source order. -/
def ORDERING_OPTIONS : List (String × OrderingOption) :=
  [("", ⟨none, "Default"⟩),
   ("price_asc", ⟨some "final_price", "Cheapest first"⟩),
   ("price_desc", ⟨some "-final_price", "Most expensive first"⟩),
   ("discount", ⟨some "-discount", "By discount amount"⟩)]

/-- Embedding of `ProductListView.ordering_option`: dictionary lookup of the request's
sort key with fallback to `ORDERING_OPTIONS[""]` (the `Default` option),
embedding `ORDERING_OPTIONS.get(key, ORDERING_OPTIONS[""])`. -/
def ordering_option (key : String) : OrderingOption :=
  (ORDERING_OPTIONS.lookup key).getD ⟨none, "Default"⟩

/-- Split an `order_by` argument into its descending marker and field
name: a leading "-" requests descending order. -/
def parseOrder (f : String) : Bool × String :=
  match f.data with
  | '-' :: rest => (true, String.mk rest)
  | _ => (false, f)

/-- Value of the expression `F("price") * (1 - F("discount") / 100.0)`
with which `ProductRepository.filter` annotates records before
final-price ordering, in exact arithmetic. -/
def annotatedFinalPrice (p : Product) : ℚ :=
  p.price * (1 - p.discount / 100)

/-- Sort keys resolvable on a product row: the `final_price` value added
by the annotate step, and the numeric model columns the ordering options
reach. Other (non-numeric) columns are not needed by any ordering option
and are left unresolved. -/
def productSortKey (name : String) : Option (Product → ℚ) :=
  if name = "final_price" then some annotatedFinalPrice
  else if name = "price" then some Product.price
  else if name = "discount" then some Product.discount
  else none

/-- Ascending comparison of products by a sort key. -/
def ascBy (key : Product → ℚ) : Product → Product → Prop :=
  fun p q => key p ≤ key q

/-- Descending comparison of products by a sort key. -/
def descBy (key : Product → ℚ) : Product → Product → Prop :=
  fun p q => key q ≤ key p

instance (key : Product → ℚ) : DecidableRel (ascBy key) :=
  fun p q => inferInstanceAs (Decidable (key p ≤ key q))

instance (key : Product → ℚ) : DecidableRel (descBy key) :=
  fun p q => inferInstanceAs (Decidable (key q ≤ key p))

/-- Embedding of `queryset.order_by(f)`: sort by the resolved key, descending when `f`
carries the "-" marker; `none` models the store's field-resolution error
for a key that does not exist on the row. -/
def orderBy (f : String) (qs : List Product) : Option (List Product) :=
  let pr := parseOrder f
  match productSortKey pr.2 with
  | none => none
  | some key =>
      if pr.1 then some (List.insertionSort (descBy key) qs)
      else some (List.insertionSort (ascBy key) qs)

/-- Embedding of `ProductRepository.filter(search_query, only_active, order_field)` on
a record set `ps` (the result of `all()`, which only eager-loads
associations): restrict to active records when `only_active`, then to
name matches when the query is truthy, then order. The annotate step for
`final_price` is folded into `productSortKey`. -/
def ProductRepository.filter (search_query : Option String)
    (only_active : Bool) (order_field : Option String)
    (ps : List Product) : Option (List Product) :=
  let qs := ps
  let qs := if only_active then qs.filter (fun p => p.is_active) else qs
  let qs := if strTruthy search_query then
      qs.filter (fun p => icontains p.name (search_query.getD ""))
    else qs
  if strTruthy order_field then orderBy (order_field.getD "") qs
  else some qs

/-- Embedding of `VacancyRepository.filter(search_query, only_active)` on a record set
`vs`: restrict to active records when `only_active`, then to records
where the query matches title OR description OR short_description. -/
def VacancyRepository.filter (search_query : Option String)
    (only_active : Bool) (vs : List Vacancy) : List Vacancy :=
  let qs := vs
  let qs := if only_active then qs.filter (fun v => v.is_active) else qs
  if strTruthy search_query then
    qs.filter (fun v =>
      icontains v.title (search_query.getD "") ||
      icontains v.description (search_query.getD "") ||
      icontains v.short_description (search_query.getD ""))
  else qs

/-- The fields of `catalog.models.Category` the verified operations read:
primary key `id`, nullable `parent` FK, `name`, `sort_order`,
`is_active`. -/
structure Category where
  id : Nat
  parent : Option Nat
  name : String
  sort_order : Nat
  is_active : Bool
deriving DecidableEq

/-- The `Category.Meta` default ordering `("sort_order", "name")`:
lexicographic on sort order then name. -/
def catLe (c d : Category) : Prop :=
  c.sort_order < d.sort_order ∨
    (c.sort_order = d.sort_order ∧ c.name ≤ d.name)

instance : DecidableRel catLe := fun _ _ =>
  inferInstanceAs (Decidable (_ ∨ _))

/-- Embedding of `CategoryRepository.get_parents` on a category set `cs`: the active
top-level categories (in `Meta` order), each paired with its prefetched
active subcategories (also in `Meta` order). -/
def CategoryRepository.get_parents (cs : List Category) :
    List (Category × List Category) :=
  (List.insertionSort catLe
      (cs.filter (fun c => c.parent.isNone && c.is_active))).map
    (fun c =>
      (c, List.insertionSort catLe
        (cs.filter (fun s => decide (s.parent = some c.id) && s.is_active))))

instance (key : Product → ℚ) : IsTotal Product (ascBy key) :=
  ⟨fun p q => le_total (key p) (key q)⟩

instance (key : Product → ℚ) : IsTrans Product (ascBy key) :=
  ⟨fun _ _ _ h1 h2 => le_trans h1 h2⟩

instance (key : Product → ℚ) : IsTotal Product (descBy key) :=
  ⟨fun p q => le_total (key q) (key p)⟩

instance (key : Product → ℚ) : IsTrans Product (descBy key) :=
  ⟨fun _ _ _ h1 h2 => le_trans h2 h1⟩

instance : IsTotal Category catLe :=
  ⟨fun c d => by
    rcases lt_trichotomy c.sort_order d.sort_order with h | h | h
    · exact Or.inl (Or.inl h)
    · rcases le_total c.name d.name with hn | hn
      · exact Or.inl (Or.inr ⟨h, hn⟩)
      · exact Or.inr (Or.inr ⟨h.symm, hn⟩)
    · exact Or.inr (Or.inl h)⟩

instance : IsTrans Category catLe :=
  ⟨fun a b c hab hbc => by
    rcases hab with h1 | ⟨e1, n1⟩ <;> rcases hbc with h2 | ⟨e2, n2⟩
    · exact Or.inl (h1.trans h2)
    · exact Or.inl (lt_of_lt_of_le h1 (le_of_eq e2))
    · exact Or.inl (lt_of_le_of_lt (le_of_eq e1) h2)
    · exact Or.inr ⟨e1.trans e2, n1.trans n2⟩⟩

/-- Sample active top-level category. -/
def catFruits : Category := ⟨1, none, "Fruits", 0, true⟩

/-- Sample inactive top-level category. -/
def catHidden : Category := ⟨2, none, "Hidden", 1, false⟩

/-- Sample active subcategory of the inactive `catHidden`. -/
def catHiddenSub : Category := ⟨3, some 2, "Hidden Sub", 0, true⟩

/-- Sample category set holding an inactive top-level category with an
active subcategory. -/
def demoCategories : List Category := [catFruits, catHidden, catHiddenSub]

/-- Sample active product whose name contains "milk" case-insensitively. -/
def wholeMilk : Product := ⟨"Whole Milk", 100, 0, 1, true⟩

/-- Sample inactive product whose name contains "milk" case-insensitively. -/
def milkChocolate : Product := ⟨"Milk Chocolate", 100, 0, 1, false⟩

/-- Sample active product placed in a different category (id 2). -/
def importedTea : Product := ⟨"Imported Tea", 50, 0, 2, true⟩

/-- Sample vacancy whose description (only) mentions "milk". -/
def devVacancy : Vacancy :=
  ⟨"Engineer", "short text", "We sell Milk products", true, none, none⟩

/-! ## Claim theorems -/

/-- C1: for every product, `get_final_price` returns
`price * (1 - discount/100)` in exact decimal arithmetic; with
`discount = 0` it returns `price`, and with `discount = 100` it
returns `0`. -/
theorem final_price_spec (p : Product) :
    Product.get_final_price p = p.price * (1 - p.discount / 100) ∧
    (p.discount = 0 → Product.get_final_price p = p.price) ∧
    (p.discount = 100 → Product.get_final_price p = 0) := by
  refine ⟨rfl, ?_, ?_⟩ <;> intro h <;>
    simp [Product.get_final_price, h]

/-- Witness for C1 at concrete products with discounts 0 and 100. -/
theorem final_price_spec_witness :
    Product.get_final_price ⟨"a", 200, 0, 1, true⟩ = 200 ∧
    Product.get_final_price ⟨"b", 200, 100, 1, true⟩ = 0 :=
  ⟨(final_price_spec _).2.1 rfl, (final_price_spec _).2.2 rfl⟩

/-- C2 counterexample: with both bounds 50000/80000 the code renders
"50000 – 80000" (spaces around the dash), not "50000–80000"; with only
an upper bound it renders "to 80000", not "up to 80000"; and with a
zero lower bound present the both-bounds form is not used. -/
theorem formatted_salary_claim_counterexample :
    Vacancy.get_formatted_salary (mkVacancy (some 50000) (some 80000)) ≠
      "50000–80000" ∧
    Vacancy.get_formatted_salary (mkVacancy none (some 80000)) ≠
      "up to 80000" ∧
    Vacancy.get_formatted_salary (mkVacancy (some 0) (some 80000)) ≠
      "0 – 80000" := by
  refine ⟨?_, ?_, ?_⟩ <;> decide

/-- C2 (amended): when both bounds are present and nonzero the salary
renders as "from – to" with spaces around the en dash; with only a
nonzero lower bound, "from X"; with only a nonzero upper bound, "to Y";
with neither bound present-and-nonzero, the empty string. -/
theorem formatted_salary_spec (v : Vacancy) :
    (∀ a b, v.salary_from = some a → 0 < a → v.salary_to = some b →
      0 < b →
      v.get_formatted_salary = toString a ++ " – " ++ toString b) ∧
    (∀ a, v.salary_from = some a → 0 < a → optTruthy v.salary_to = false →
      v.get_formatted_salary = "from " ++ toString a) ∧
    (∀ b, optTruthy v.salary_from = false → v.salary_to = some b →
      0 < b →
      v.get_formatted_salary = "to " ++ toString b) ∧
    (optTruthy v.salary_from = false → optTruthy v.salary_to = false →
      v.get_formatted_salary = "") := by
  refine ⟨?_, ?_, ?_, ?_⟩
  · intro a b ha hpa hb hpb
    simp [Vacancy.get_formatted_salary, optTruthy, ha, hb,
      Nat.pos_iff_ne_zero.mp hpa, Nat.pos_iff_ne_zero.mp hpb]
  · intro a ha hpa ht
    have hsa : optTruthy (some a) = true := by
      simp [optTruthy, Nat.pos_iff_ne_zero.mp hpa]
    simp [Vacancy.get_formatted_salary, ha, ht, hsa]
  · intro b hf hb hpb
    have hsb : optTruthy (some b) = true := by
      simp [optTruthy, Nat.pos_iff_ne_zero.mp hpb]
    simp [Vacancy.get_formatted_salary, hf, hb, hsb]
  · intro hf ht
    simp [Vacancy.get_formatted_salary, hf, ht]

/-- Witness for C2 (amended) at a concrete 50000/80000 vacancy. -/
theorem formatted_salary_spec_witness :
    Vacancy.get_formatted_salary (mkVacancy (some 50000) (some 80000)) =
      toString 50000 ++ " – " ++ toString 80000 :=
  (formatted_salary_spec _).1 50000 80000 rfl (by decide) rfl (by decide)

/-- C3 counterexample: at `salary_from = salary_to = 0` both bounds are
present and `salary_from >= salary_to`, yet `clean` accepts the vacancy,
so validation does not fail exactly when both bounds are present and
`salary_from >= salary_to`. -/
theorem clean_claim_counterexample :
    (mkVacancy (some 0) (some 0)).salary_from.isSome = true ∧
    (mkVacancy (some 0) (some 0)).salary_to.isSome = true ∧
    (mkVacancy (some 0) (some 0)).salary_from.getD 0 ≥
      (mkVacancy (some 0) (some 0)).salary_to.getD 0 ∧
    Vacancy.clean (mkVacancy (some 0) (some 0)) = Except.ok () :=
  ⟨rfl, rfl, le_refl 0, rfl⟩

/-- C3 (amended): `clean` fails with a ValidationError keyed on
`salary_to` if and only if both salary bounds are present and nonzero
and `salary_from >= salary_to`. -/
theorem clean_spec (v : Vacancy) :
    Vacancy.clean v = Except.error ("salary_to",
        "Maximum salary must be greater than minimum salary.") ↔
      ∃ a b, v.salary_from = some a ∧ v.salary_to = some b ∧
        0 < a ∧ 0 < b ∧ a ≥ b := by
  cases hf : v.salary_from with
  | none => simp [Vacancy.clean, optTruthy, hf]
  | some a =>
    cases ht : v.salary_to with
    | none => simp [Vacancy.clean, optTruthy, hf, ht]
    | some b =>
      simp only [Vacancy.clean, optTruthy, hf, ht, Option.getD_some]
      constructor
      · intro h
        split at h
        · rename_i hc
          simp only [Bool.and_eq_true, bne_iff_ne, ne_eq,
            decide_eq_true_eq] at hc
          exact ⟨a, b, rfl, rfl, Nat.pos_of_ne_zero hc.1.1,
            Nat.pos_of_ne_zero hc.1.2, hc.2⟩
        · exact absurd h (by simp)
      · rintro ⟨a', b', ha', hb', hpa, hpb, hab⟩
        cases ha'; cases hb'
        have : ((a != 0) && (b != 0) && decide (a ≥ b)) = true := by
          simp only [Bool.and_eq_true, bne_iff_ne, ne_eq,
            decide_eq_true_eq]
          exact ⟨⟨Nat.pos_iff_ne_zero.mp hpa,
            Nat.pos_iff_ne_zero.mp hpb⟩, hab⟩
        simp [this]

/-- Witness for C3 (amended) at the 90000/80000 vacancy of the spec. -/
theorem clean_spec_witness :
    Vacancy.clean (mkVacancy (some 90000) (some 80000)) =
      Except.error ("salary_to",
        "Maximum salary must be greater than minimum salary.") :=
  (clean_spec _).mpr
    ⟨90000, 80000, rfl, rfl, by decide, by decide, by decide⟩

/-- C10: a zero salary bound is treated as absent: with
`salary_from = 0` the formatted salary takes the only-upper-bound form
("to 80000"), with `salary_from = 0` and no upper bound it is empty,
and `clean` accepts any pair of present bounds in which one bound is 0
even though `salary_from >= salary_to` may hold. -/
theorem salary_zero_truthiness :
    Vacancy.get_formatted_salary (mkVacancy (some 0) (some 80000)) =
      Vacancy.get_formatted_salary (mkVacancy none (some 80000)) ∧
    Vacancy.get_formatted_salary (mkVacancy (some 0) (some 80000)) =
      "to 80000" ∧
    Vacancy.get_formatted_salary (mkVacancy (some 0) none) = "" ∧
    (∀ (v : Vacancy) (a b : Nat), v.salary_from = some a →
      v.salary_to = some b → a = 0 ∨ b = 0 →
      Vacancy.clean v = Except.ok ()) := by
  refine ⟨by decide, by decide, by decide, ?_⟩
  intro v a b ha hb hz
  rcases hz with hz | hz <;>
    simp [Vacancy.clean, optTruthy, ha, hb, hz]

/-- Witness for C10: `clean` accepts the pair (0, 0). -/
theorem salary_zero_truthiness_witness :
    Vacancy.clean (mkVacancy (some 0) (some 0)) = Except.ok () :=
  salary_zero_truthiness.2.2.2 (mkVacancy (some 0) (some 0)) 0 0
    rfl rfl (Or.inl rfl)

/-- C4: `ProductRepository.filter` with `only_active` keeps exactly the
active records whose name contains the non-empty query
case-insensitively; in particular the "milk" search over an active
"Whole Milk" and an inactive "Milk Chocolate" returns exactly the
former. -/
theorem product_filter_search_spec (ps : List Product) (q : String)
    (p : Product) (hq : q ≠ "") :
    (∃ l, ProductRepository.filter (some q) true none ps = some l ∧
      l.Sublist ps ∧
      (p ∈ l ↔ p ∈ ps ∧ p.is_active = true ∧
        icontains p.name q = true)) ∧
    ProductRepository.filter (some "milk") true none
      [wholeMilk, milkChocolate] = some [wholeMilk] := by
  refine ⟨⟨(ps.filter (fun r => r.is_active)).filter
      (fun r => icontains r.name q), ?_, ?_, ?_⟩, rfl⟩
  · simp [ProductRepository.filter, strTruthy, hq]
  · exact (List.filter_sublist _).trans (List.filter_sublist _)
  · simp only [List.mem_filter, Bool.and_eq_true, and_assoc]

/-- Witness for C4 on the two-product "milk" record set. -/
theorem product_filter_search_spec_witness :
    (∃ l, ProductRepository.filter (some "milk") true none
        [wholeMilk, milkChocolate] = some l ∧
      l.Sublist [wholeMilk, milkChocolate] ∧
      (wholeMilk ∈ l ↔ wholeMilk ∈ [wholeMilk, milkChocolate] ∧
        wholeMilk.is_active = true ∧
        icontains wholeMilk.name "milk" = true)) ∧
    ProductRepository.filter (some "milk") true none
      [wholeMilk, milkChocolate] = some [wholeMilk] :=
  product_filter_search_spec [wholeMilk, milkChocolate] "milk" wholeMilk
    (by decide)

/-- C7: `VacancyRepository.filter` with a non-empty query keeps exactly
the records (active ones, when `only_active`) in which the query occurs
case-insensitively in the title, the description or the short
description — a logical OR across the three fields. -/
theorem vacancy_filter_search_spec (vs : List Vacancy) (q : String)
    (oa : Bool) (v : Vacancy) (hq : q ≠ "") :
    v ∈ VacancyRepository.filter (some q) oa vs ↔
      v ∈ vs ∧ (oa = true → v.is_active = true) ∧
      (icontains v.title q = true ∨ icontains v.description q = true ∨
        icontains v.short_description q = true) := by
  cases oa <;>
    simp [VacancyRepository.filter, strTruthy, hq, List.mem_filter,
      and_assoc] <;>
    tauto

/-- Witness for C7: a vacancy matching only in its description is kept. -/
theorem vacancy_filter_search_spec_witness :
    devVacancy ∈ VacancyRepository.filter (some "milk") true
        [devVacancy] ↔
      devVacancy ∈ [devVacancy] ∧
      (true = true → devVacancy.is_active = true) ∧
      (icontains devVacancy.title "milk" = true ∨
        icontains devVacancy.description "milk" = true ∨
        icontains devVacancy.short_description "milk" = true) :=
  vacancy_filter_search_spec [devVacancy] "milk" true devVacancy
    (by decide)

/-- C5: the filter implemented in `ProductRepository` accepts no category
argument and applies no category restriction whatsoever — it is the
identity on the record set when its other criteria are off, and a
product of an arbitrary category (here id 2) passes through. The spec's
`category_scope` parameter does not exist in the code, although
`ProductListView.get_queryset` passes `category_slug` to it. -/
theorem product_filter_ignores_category :
    (∀ ps, ProductRepository.filter none false none ps = some ps) ∧
    ProductRepository.filter none true none [importedTea] =
      some [importedTea] :=
  ⟨fun _ => rfl, rfl⟩

/-- A resolvable sort key name is never the empty string. -/
theorem sortKeyNameNeEmpty {name : String} {key : Product → ℚ}
    (hk : productSortKey name = some key) : name ≠ "" := by
  intro h
  subst h
  rw [show productSortKey "" = none from rfl] at hk
  exact Option.noConfusion hk

/-- Prefixing a field name with the negation marker parses as a
descending request for that name. -/
theorem parseOrderNeg (name : String) :
    parseOrder ("-" ++ name) = (true, name) := by
  cases name with
  | mk data => rfl

/-- A name prefixed with the negation marker is non-empty. -/
theorem negAppendNeEmpty (name : String) : ("-" ++ name) ≠ "" := by
  cases name with
  | mk data =>
    intro h
    simp [String.ext_iff] at h

/-- C8: with a resolvable order field the product filter returns a
permutation of the record set sorted ascending by that field, and
sorted descending when the field carries the "-" marker; with no order
field the record set's default order is preserved (the result is a
sublist of the input); and every request sort key outside the
ordering-options mapping resolves to the no-op Default option
(field `none`). -/
theorem product_filter_ordering_spec (ps : List Product) (name : String)
    (key : Product → ℚ) (hk : productSortKey name = some key)
    (hnd : parseOrder name = (false, name)) :
    (∃ l, ProductRepository.filter none false (some name) ps = some l ∧
      l.Perm ps ∧ l.Sorted (ascBy key)) ∧
    (∃ l, ProductRepository.filter none false (some ("-" ++ name)) ps =
        some l ∧ l.Perm ps ∧ l.Sorted (descBy key)) ∧
    (∀ q oa, ∃ l, ProductRepository.filter q oa none ps = some l ∧
      l.Sublist ps) ∧
    (∀ k, k ∉ ["", "price_asc", "price_desc", "discount"] →
      ordering_option k = ⟨none, "Default"⟩) := by
  have hne : name ≠ "" := sortKeyNameNeEmpty hk
  refine ⟨?_, ?_, ?_, ?_⟩
  · refine ⟨List.insertionSort (ascBy key) ps, ?_,
      List.perm_insertionSort _ _, List.sorted_insertionSort _ _⟩
    simp [ProductRepository.filter, strTruthy, hne, orderBy, hnd, hk]
  · refine ⟨List.insertionSort (descBy key) ps, ?_,
      List.perm_insertionSort _ _, List.sorted_insertionSort _ _⟩
    have h2 : ("-" ++ name) ≠ "" := negAppendNeEmpty name
    simp [ProductRepository.filter, strTruthy, h2, orderBy,
      parseOrderNeg, hk]
  · intro q oa
    refine ⟨_, rfl, ?_⟩
    cases oa <;> cases hq : strTruthy q <;>
      simp [ProductRepository.filter, hq]
  · intro k hk4
    simp only [List.mem_cons, List.not_mem_nil, or_false, not_or] at hk4
    obtain ⟨h0, h1, h2, h3⟩ := hk4
    have b0 : (k == "") = false := beq_eq_false_iff_ne.mpr h0
    have b1 : (k == "price_asc") = false := beq_eq_false_iff_ne.mpr h1
    have b2 : (k == "price_desc") = false := beq_eq_false_iff_ne.mpr h2
    have b3 : (k == "discount") = false := beq_eq_false_iff_ne.mpr h3
    simp [ordering_option, ORDERING_OPTIONS, List.lookup, b0, b1, b2, b3]

/-- Witness for C8: ascending final-price ordering of a concrete
two-product set. -/
theorem product_filter_ordering_spec_witness :
    ∃ l, ProductRepository.filter none false (some "final_price")
        [wholeMilk, importedTea] = some l ∧
      l.Perm [wholeMilk, importedTea] ∧
      l.Sorted (ascBy annotatedFinalPrice) :=
  (product_filter_ordering_spec [wholeMilk, importedTea] "final_price"
    annotatedFinalPrice rfl rfl).1

/-- C9: `get_parents` returns exactly the active top-level categories
(parent absent), each paired with exactly its active immediate
subcategories, both in sort_order-then-name order; every returned
parent is active (so an inactive top-level category is not returned)
and every returned subcategory is active and attached to an active
top-level parent (so no subcategory of an excluded parent appears). -/
theorem get_parents_spec (cs : List Category) :
    (∀ pr ∈ CategoryRepository.get_parents cs,
      pr.1 ∈ cs ∧ pr.1.parent = none ∧ pr.1.is_active = true ∧
      (∀ s, s ∈ pr.2 ↔ s ∈ cs ∧ s.parent = some pr.1.id ∧
        s.is_active = true)) ∧
    (∀ c ∈ cs, c.parent = none → c.is_active = true →
      ∃ subs, (c, subs) ∈ CategoryRepository.get_parents cs) ∧
    ((CategoryRepository.get_parents cs).map Prod.fst).Sorted catLe ∧
    (∀ pr ∈ CategoryRepository.get_parents cs, pr.2.Sorted catLe) := by
  refine ⟨?_, ?_, ?_, ?_⟩
  · intro pr hpr
    simp only [CategoryRepository.get_parents, List.mem_map] at hpr
    obtain ⟨c, hc, rfl⟩ := hpr
    rw [(List.perm_insertionSort catLe _).mem_iff] at hc
    simp only [List.mem_filter, Bool.and_eq_true,
      Option.isNone_iff_eq_none] at hc
    refine ⟨hc.1, hc.2.1, hc.2.2, ?_⟩
    intro s
    rw [(List.perm_insertionSort catLe _).mem_iff]
    simp only [List.mem_filter, Bool.and_eq_true, decide_eq_true_eq]
  · intro c hcin hp ha
    have hmem : c ∈ List.insertionSort catLe
        (cs.filter (fun d => d.parent.isNone && d.is_active)) := by
      rw [(List.perm_insertionSort catLe _).mem_iff, List.mem_filter]
      refine ⟨hcin, ?_⟩
      simp [hp, ha]
    exact ⟨_, List.mem_map_of_mem _ hmem⟩
  · rw [CategoryRepository.get_parents, List.map_map]
    have hfst : (Prod.fst ∘ fun c : Category =>
        (c, List.insertionSort catLe (cs.filter (fun s =>
          decide (s.parent = some c.id) && s.is_active)))) = id := rfl
    rw [hfst, List.map_id]
    exact List.sorted_insertionSort _ _
  · intro pr hpr
    simp only [CategoryRepository.get_parents, List.mem_map] at hpr
    obtain ⟨c, _, rfl⟩ := hpr
    exact List.sorted_insertionSort _ _

/-- Witness for C9: the active top-level category of the demo set is
returned with some subcategory list. -/
theorem get_parents_spec_witness :
    ∃ subs, (catFruits, subs) ∈
      CategoryRepository.get_parents demoCategories :=
  (get_parents_spec demoCategories).2.1 catFruits (by decide) rfl rfl
